import Mathlib

/-!
Shallow embedding of the seat-reservation concurrency engine
(`src/main.go`, `src/concurrency_control.go`, schema `src/setup.sql`).

The seat store (MySQL table `seats`) is modelled as a `List Seat`; the
distributed lock service (Redis) as a list of `RedisEntry` (key, value,
expiry), since the only operations used are SetNX-with-expiry, Get and Del.
Each Go function that runs one transaction is a pure function from the
pre-state to the post-state plus an optional error; `tx.Rollback` on a
failure path is modelled by returning the pre-state unchanged.

Interference from concurrent transactions is modelled, where a claim needs
it, by a two-state variant (`...W`): the first store argument is the state
seen by the initial SELECT, the second is the (externally modified) state
the conditional UPDATEs run against.  The sequential function instantiates
both with the same state.

Timestamps are `Nat` seconds; `time.Now().Add(time.Minute)` becomes
`now + 60`.  Error strings returned via `fmt.Errorf` are mapped to the
error taxonomy of the design (InvalidInput, SeatsUnavailable,
OptimisticConflict, LockContention, ConcurrentModification, NotFound).
-/

/-- One row of the `seats` table (`src/setup.sql` plus the `version`
column used by `concurrency_control.go` and the webhook). -/
structure Seat where
  id : Nat
  showId : Nat
  seatNumber : String
  isReserved : Bool
  reservedUntil : Option Nat
  userId : Option Nat
  paymentStatus : String
  paymentTimeout : Option Nat
  paymentSessionId : Option String
  paymentRedirectUrl : Option String
  version : Nat
deriving DecidableEq

/-- One Redis key with its value and the absolute expiry instant recorded
when it was set (SetNX with a 1-minute lifetime). -/
structure RedisEntry where
  key : String
  value : String
  expiry : Nat
deriving DecidableEq

abbrev Redis := List RedisEntry

/-- Redis GET: the value stored under a key, if present. -/
def redisGet (r : Redis) (k : String) : Option String :=
  match r.find? (fun e => e.key == k) with
  | some e => some e.value
  | none => none

/-- Redis SETNX with expiry: atomically create the entry if the key is
absent; returns the new state and whether the lock was acquired. -/
def redisSetNX (r : Redis) (k v : String) (exp : Nat) : Redis × Bool :=
  if (redisGet r k).isSome then (r, false) else (⟨k, v, exp⟩ :: r, true)

/-- Redis DEL of one key. -/
def redisDel (r : Redis) (k : String) : Redis :=
  r.filter (fun e => e.key != k)

/-- Error taxonomy for the engine; each constructor corresponds to one
family of `fmt.Errorf`/HTTP-error returns in the source. -/
inductive BookErr where
  | invalidInput
  | seatsUnavailable
  | optimisticConflict
  | lockContention (holder : Option String)
  | concurrentModification
  | notFound
deriving DecidableEq

/-- The SQL bookability condition used by every locker:
`is_reserved = 0 OR (is_reserved = 1 AND payment_status = 'FAILED')`. -/
def bookable (s : Seat) : Bool :=
  !s.isReserved || (s.isReserved && s.paymentStatus == "FAILED")

/-- The common SET clause of the reservation UPDATEs:
`is_reserved = 1, payment_status = 'PENDING', user_id, payment_session_id,
payment_redirect_url, payment_timeout = now + 1 minute`.  Note that it does
not touch `version`. -/
def reservePending (uid : Nat) (bid : String) (now : Nat) (s : Seat) : Seat :=
  { s with isReserved := true
           paymentStatus := "PENDING"
           userId := some uid
           paymentSessionId := some bid
           paymentRedirectUrl := some ("https://payment-gateway.example.com/pay/" ++ bid)
           paymentTimeout := some (now + 60) }

/-- PessimisticLocking (`concurrency_control.go:31`): SELECT ... FOR UPDATE
restricted to bookable requested rows; if fewer rows than requested, roll
back with SeatsUnavailable; else UPDATE every requested row (by id only)
to PENDING and commit. -/
def PessimisticLocking (db : List Seat) (uid : Nat) (ids : List Nat)
    (bid : String) (now : Nat) : List Seat × Option BookErr :=
  if ids.isEmpty then (db, some .invalidInput)
  else
    let lockedCount := (db.filter (fun s => ids.contains s.id && bookable s)).length
    if lockedCount ≠ ids.length then (db, some .seatsUnavailable)
    else
      (db.map (fun s => if ids.contains s.id then reservePending uid bid now s else s), none)

/-- The (id, version) pairs scanned by OptimisticLocking's initial SELECT
over the bookable requested rows. -/
def optimisticRead (db : List Seat) (ids : List Nat) : List (Nat × Nat) :=
  (db.filter (fun s => ids.contains s.id && bookable s)).map (fun s => (s.id, s.version))

/-- Lookup in the scanned `seatVersions` map; a missing key yields Go's
zero value 0. -/
def lookupVersion (pairs : List (Nat × Nat)) (sid : Nat) : Nat :=
  match pairs.find? (fun p => p.1 == sid) with
  | some p => p.2
  | none => 0

/-- The row produced by OptimisticLocking's conditional UPDATE: the common
reservation SET clause plus `version = version + 1`. -/
def optimisticBump (uid : Nat) (bid : String) (now : Nat) (s : Seat) : Seat :=
  { reservePending uid bid now s with version := s.version + 1 }

/-- One conditional UPDATE of OptimisticLocking
(`WHERE id = ? AND version = ? AND bookable`); returns the new store and
the affected-row count. -/
def optimisticUpdateSeat (db : List Seat) (uid : Nat) (bid : String) (now : Nat)
    (sid ver : Nat) : List Seat × Nat :=
  (db.map (fun s => if s.id == sid && s.version == ver && bookable s then
            optimisticBump uid bid now s else s),
   (db.filter (fun s => s.id == sid && s.version == ver && bookable s)).length)

/-- OptimisticLocking's per-seat update loop; a zero-row update aborts with
an optimistic-lock conflict. -/
def optimisticWriteLoop (uid : Nat) (bid : String) (now : Nat)
    (pairs : List (Nat × Nat)) (db : List Seat) :
    List Nat → Except BookErr (List Seat)
  | [] => .ok db
  | sid :: rest =>
    let step := optimisticUpdateSeat db uid bid now sid (lookupVersion pairs sid)
    if step.2 = 0 then .error .optimisticConflict
    else optimisticWriteLoop uid bid now pairs step.1 rest

/-- OptimisticLocking (`concurrency_control.go:116`) with an explicit
interference point: `dbR` is the state read by the version SELECT, `dbW`
the state the conditional UPDATEs run against.  Any failure rolls the
transaction back, leaving `dbW`. -/
def OptimisticLockingW (dbR dbW : List Seat) (uid : Nat) (ids : List Nat)
    (bid : String) (now : Nat) : List Seat × Option BookErr :=
  if ids.isEmpty then (dbW, some .invalidInput)
  else
    let pairs := optimisticRead dbR ids
    if pairs.length ≠ ids.length then (dbW, some .seatsUnavailable)
    else
      match optimisticWriteLoop uid bid now pairs dbW ids with
      | .error e => (dbW, some e)
      | .ok db' => (db', none)

/-- OptimisticLocking run without interference. -/
def OptimisticLocking (db : List Seat) (uid : Nat) (ids : List Nat)
    (bid : String) (now : Nat) : List Seat × Option BookErr :=
  OptimisticLockingW db db uid ids bid now

/-- BookMyShowTimeoutImp (`concurrency_control.go:229`): SetNX a Redis lock
keyed on the first seat only (`seat_lock:<id>` -> `user:<uid>`, 1-minute
lifetime); on contention fail with the current holder; else re-check the
bookable count under FOR UPDATE and reserve all seats.  The lock is never
deleted, on success or on a DB-side failure. -/
def BookMyShowTimeoutImp (db : List Seat) (r : Redis) (uid : Nat)
    (ids : List Nat) (bid : String) (now : Nat) :
    List Seat × Redis × Option BookErr :=
  match ids with
  | [] => (db, r, some .invalidInput)
  | first :: _ =>
    let lockKey := "seat_lock:" ++ toString first
    let lockValue := "user:" ++ toString uid
    let acq := redisSetNX r lockKey lockValue (now + 60)
    if acq.2 then
      let availableCount := (db.filter (fun s => ids.contains s.id && bookable s)).length
      if availableCount ≠ ids.length then (db, acq.1, some .seatsUnavailable)
      else
        (db.map (fun s => if ids.contains s.id then reservePending uid bid now s else s),
         acq.1, none)
    else (db, acq.1, some (.lockContention (redisGet acq.1 lockKey)))

/-- Predicate of the webhook's SELECT:
`payment_session_id = ? AND payment_status = 'PENDING'`. -/
def sessionPending (sid : String) (s : Seat) : Bool :=
  s.paymentSessionId == some sid && s.paymentStatus == "PENDING"

/-- The row produced by the webhook's conditional UPDATE: the payload
status written verbatim, `version = version + 1`. -/
def webhookBump (status : String) (s : Seat) : Seat :=
  { s with paymentStatus := status, version := s.version + 1 }

/-- One conditional UPDATE of the webhook (`WHERE id = ? AND version = ?`,
no status or session guard); returns the new store and the affected-row
count. -/
def webhookUpdateSeat (db : List Seat) (status : String) (sid ver : Nat) :
    List Seat × Nat :=
  (db.map (fun s => if s.id == sid && s.version == ver then webhookBump status s else s),
   (db.filter (fun s => s.id == sid && s.version == ver)).length)

/-- The webhook's per-seat update loop over the captured (id, version)
pairs; a zero-row update aborts with ConcurrentModification. -/
def webhookWriteLoop (status : String) (db : List Seat) :
    List (Nat × Nat) → Except BookErr (List Seat)
  | [] => .ok db
  | p :: rest =>
    let step := webhookUpdateSeat db status p.1 p.2
    if step.2 = 0 then .error .concurrentModification
    else webhookWriteLoop status step.1 rest

/-- The webhook's post-commit best-effort lock cleanup: for each (seat id,
user id), delete `seat_lock:<id>` only when its value is `user:<uid>`. -/
def webhookCleanupLocks (r : Redis) : List (Nat × Nat) → Redis
  | [] => r
  | p :: rest =>
    let k := "seat_lock:" ++ toString p.1
    let v := "user:" ++ toString p.2
    webhookCleanupLocks (if redisGet r k == some v then redisDel r k else r) rest

/-- handlePaymentWebhook (`main.go:64`) with an explicit interference
point: `dbR` is the state seen by the PENDING-rows SELECT, `dbW` the state
the conditional UPDATEs run against.  No pending rows means HTTP 404
(NotFound) with nothing changed; any zero-row update rolls back to `dbW`. -/
def handlePaymentWebhookW (dbR dbW : List Seat) (r : Redis)
    (sid status : String) : List Seat × Redis × Option BookErr :=
  let pend := dbR.filter (sessionPending sid)
  if pend.isEmpty then (dbW, r, some .notFound)
  else
    match webhookWriteLoop status dbW (pend.map (fun s => (s.id, s.version))) with
    | .error e => (dbW, r, some e)
    | .ok db' =>
      (db', webhookCleanupLocks r (pend.map (fun s => (s.id, s.userId.getD 0))), none)

/-- handlePaymentWebhook run without interference. -/
def handlePaymentWebhook (db : List Seat) (r : Redis) (sid status : String) :
    List Seat × Redis × Option BookErr :=
  handlePaymentWebhookW db db r sid status

/-- The sweeper's unconditional reset of one expired seat
(`main.go:330`): bookable/FAILED, every reservation field nulled, and no
version change and no version guard. -/
def sweepSeat (s : Seat) : Seat :=
  { s with isReserved := false
           paymentStatus := "FAILED"
           userId := none
           reservedUntil := none
           paymentTimeout := none
           paymentSessionId := none
           paymentRedirectUrl := none }

/-- Predicate of the sweeper's SELECT:
`payment_status = 'PENDING' AND payment_timeout < NOW()` (a NULL timeout
never compares below NOW). -/
def timedOut (now : Nat) (s : Seat) : Bool :=
  s.paymentStatus == "PENDING" &&
    (match s.paymentTimeout with
     | some t => decide (t < now)
     | none => false)

/-- The sweeper's per-seat loop: reset the seat by id, then DEL the Redis
key `lock:seat:<id>` (note the format differs from the `seat_lock:<id>`
key that BookMyShowTimeoutImp creates). -/
def sweepLoop (db : List Seat) (r : Redis) : List Nat → List Seat × Redis
  | [] => (db, r)
  | sid :: rest =>
    sweepLoop (db.map (fun s => if s.id == sid then sweepSeat s else s))
      (redisDel r ("lock:seat:" ++ toString sid)) rest

/-- One cycle of checkPaymentTimeouts (`main.go:286`): select the expired
PENDING seats, reset each unconditionally, commit, delete each seat's
`lock:seat:<id>` Redis key. -/
def checkPaymentTimeoutsCycle (db : List Seat) (r : Redis) (now : Nat) :
    List Seat × Redis :=
  sweepLoop db r ((db.filter (timedOut now)).map (fun s => s.id))

/-- BookSeats (`main.go:42`): dispatch on the strategy name; an unknown
name fails with InvalidInput before any store or lock-service access. -/
def BookSeats (db : List Seat) (r : Redis) (method : String) (uid : Nat)
    (ids : List Nat) (bid : String) (now : Nat) :
    List Seat × Redis × Option BookErr :=
  if method == "pessimistic" then
    ((PessimisticLocking db uid ids bid now).1, r, (PessimisticLocking db uid ids bid now).2)
  else if method == "optimistic" then
    ((OptimisticLocking db uid ids bid now).1, r, (OptimisticLocking db uid ids bid now).2)
  else if method == "current" then
    BookMyShowTimeoutImp db r uid ids bid now
  else (db, r, some .invalidInput)

/-- The payment-status strings of the seats holding a session token. -/
def sessionStatuses (db : List Seat) (bid : String) : List String :=
  (db.filter (fun s => s.paymentSessionId == some bid)).map (fun s => s.paymentStatus)

/-- Lexicographic comparison of character lists by code point; executable
embedding of string comparison for the ASCII status strings. -/
def charsLe : List Char → List Char → Bool
  | [], _ => true
  | _ :: _, [] => false
  | c :: cs, d :: ds =>
    if c.toNat < d.toNat then true
    else if d.toNat < c.toNat then false
    else charsLe cs ds

/-- Lexicographic string comparison. -/
def strLe (a b : String) : Bool :=
  charsLe a.data b.data

/-- MySQL MIN over two status strings.  `payment_status` is an ENUM column
and the MySQL manual specifies that MIN() and MAX() compare ENUM columns
by their string value rather than by the value's position in the ENUM
declaration, so this is lexicographic string comparison. -/
def statusMin (a b : String) : String :=
  if strLe a b then a else b

/-- handleBookingStatus (`main.go:233`):
`SELECT COALESCE(MIN(payment_status), 'NOT_FOUND') ... WHERE
payment_session_id = ?`. -/
def handleBookingStatus (db : List Seat) (bid : String) : String :=
  match sessionStatuses db bid with
  | [] => "NOT_FOUND"
  | x :: xs => xs.foldl statusMin x

/-- Modelled from the spec for comparison with `handleBookingStatus`: the
spec's aggregation is the least-advanced status, PENDING being less
advanced than the terminal statuses COMPLETED and FAILED.  A status is
ranked 0 when PENDING and 1 when terminal; the aggregate keeps the
lowest-ranked status seen. -/
def specLeastAdvanced : List String → String
  | [] => "NOT_FOUND"
  | x :: xs => xs.foldl (fun a b => if b == "PENDING" && !(a == "PENDING") then b else a) x

/-- The per-seat effect of a successful OptimisticLocking run: every
requested seat gets the reservation fields and `version + 1`, every other
seat is untouched. -/
def optimisticApply (uid : Nat) (bid : String) (now : Nat) (ids : List Nat) (s : Seat) : Seat :=
  if ids.contains s.id then optimisticBump uid bid now s else s

/-- The per-seat effect of a successful webhook run: every seat of the
session still PENDING gets the payload status and `version + 1`, every
other seat is untouched. -/
def webhookApply (sid st : String) (s : Seat) : Seat :=
  if sessionPending sid s then webhookBump st s else s

/-- Baseline seat row used by the concrete witnesses: a freshly
provisioned bookable seat (schema defaults of `setup.sql`). -/
def seatRow : Seat :=
  { id := 1, showId := 1, seatNumber := "A1", isReserved := false, reservedUntil := none,
    userId := none, paymentStatus := "PENDING", paymentTimeout := none,
    paymentSessionId := none, paymentRedirectUrl := none, version := 0 }

/-- Store with a two-seat session "s" in mixed states, one COMPLETED and
one still PENDING. -/
def mixedSessionDb : List Seat :=
  [{ seatRow with id := 1, isReserved := true, userId := some 4,
                  paymentStatus := "COMPLETED", paymentSessionId := some "s", version := 2 },
   { seatRow with id := 2, isReserved := true, userId := some 4,
                  paymentStatus := "PENDING", paymentSessionId := some "s", version := 1 }]

/-- Seat 2 already taken: reserved with a live PENDING payment. -/
def seatTakenB : Seat :=
  { seatRow with id := 2, isReserved := true, userId := some 5,
                 paymentSessionId := some "other", version := 3 }

/-- A second bookable seat. -/
def seatRow2 : Seat :=
  { seatRow with id := 2, seatNumber := "A2" }

/-- Seat 7 held by user 3 under session "b7" whose payment deadline (50)
has passed. -/
def pendingSeat7 : Seat :=
  { seatRow with id := 7, isReserved := true, userId := some 3,
                 paymentStatus := "PENDING", paymentTimeout := some 50,
                 paymentSessionId := some "b7",
                 paymentRedirectUrl := some "https://payment-gateway.example.com/pay/b7",
                 version := 0 }

/-- The Redis lock a booking created for seat 7. -/
def lockEntry7 : RedisEntry :=
  ⟨"seat_lock:7", "user:3", 160⟩

/-- Single-seat session "sess" of user 4, still PENDING. -/
def pendingSessionDb : List Seat :=
  [{ seatRow with isReserved := true, userId := some 4,
                  paymentStatus := "PENDING", paymentTimeout := some 200,
                  paymentSessionId := some "sess" }]

/-- Session "sess" after a successful COMPLETED finalization: the seat
keeps the token but is no longer PENDING. -/
def finalizedSessionDb : List Seat :=
  [{ seatRow with isReserved := true, userId := some 4,
                  paymentStatus := "COMPLETED", paymentTimeout := some 200,
                  paymentSessionId := some "sess", version := 1 }]

/-! ### Order lemmas for the lexicographic status comparison -/

lemma charsLe_cons {c d : Char} {cs ds : List Char} :
    charsLe (c :: cs) (d :: ds) = true ↔
      c.toNat < d.toNat ∨ (c.toNat = d.toNat ∧ charsLe cs ds = true) := by
  by_cases h1 : c.toNat < d.toNat
  · simp [charsLe, h1]
  · by_cases h2 : d.toNat < c.toNat
    · simp only [charsLe, if_neg h1, if_pos h2]
      constructor
      · intro h
        cases h
      · rintro (h | ⟨h, -⟩)
        · exact absurd h h1
        · exact absurd (h ▸ h2) (Nat.lt_irrefl _)
    · have h3 : c.toNat = d.toNat := Nat.le_antisymm (Nat.le_of_not_lt h2) (Nat.le_of_not_lt h1)
      simp [charsLe, h1, h2, h3]

lemma charsLe_refl (l : List Char) : charsLe l l = true := by
  induction l with
  | nil => rfl
  | cons c cs ih => simp [charsLe_cons, ih]

lemma charsLe_total (a b : List Char) : charsLe a b = true ∨ charsLe b a = true := by
  induction a generalizing b with
  | nil => exact Or.inl rfl
  | cons c cs ih =>
    cases b with
    | nil => exact Or.inr rfl
    | cons d ds =>
      rcases Nat.lt_trichotomy c.toNat d.toNat with h | h | h
      · exact Or.inl (charsLe_cons.mpr (Or.inl h))
      · rcases ih ds with h' | h'
        · exact Or.inl (charsLe_cons.mpr (Or.inr ⟨h, h'⟩))
        · exact Or.inr (charsLe_cons.mpr (Or.inr ⟨h.symm, h'⟩))
      · exact Or.inr (charsLe_cons.mpr (Or.inl h))

lemma charsLe_trans {a b c : List Char} (hab : charsLe a b = true)
    (hbc : charsLe b c = true) : charsLe a c = true := by
  induction a generalizing b c with
  | nil => rfl
  | cons x xs ih =>
    cases b with
    | nil => cases hab
    | cons y ys =>
      cases c with
      | nil => cases hbc
      | cons z zs =>
        rcases charsLe_cons.mp hab with h1 | ⟨h1, h1'⟩ <;>
          rcases charsLe_cons.mp hbc with h2 | ⟨h2, h2'⟩
        · exact charsLe_cons.mpr (Or.inl (Nat.lt_trans h1 h2))
        · exact charsLe_cons.mpr (Or.inl (h2 ▸ h1))
        · exact charsLe_cons.mpr (Or.inl (h1 ▸ h2))
        · exact charsLe_cons.mpr (Or.inr ⟨h1.trans h2, ih h1' h2'⟩)

lemma strLe_refl (a : String) : strLe a a = true :=
  charsLe_refl a.data

lemma strLe_total (a b : String) : strLe a b = true ∨ strLe b a = true :=
  charsLe_total a.data b.data

lemma strLe_trans {a b c : String} (hab : strLe a b = true) (hbc : strLe b c = true) :
    strLe a c = true :=
  charsLe_trans hab hbc

lemma statusMin_choice (a b : String) : statusMin a b = a ∨ statusMin a b = b := by
  unfold statusMin
  split <;> simp

lemma strLe_statusMin_left (a b : String) : strLe (statusMin a b) a = true := by
  unfold statusMin
  split
  · exact strLe_refl a
  · rcases strLe_total a b with h | h
    · simp_all
    · exact h

lemma strLe_statusMin_right (a b : String) : strLe (statusMin a b) b = true := by
  unfold statusMin
  split
  · assumption
  · exact strLe_refl b

lemma foldl_statusMin_mem (xs : List String) (x : String) :
    xs.foldl statusMin x = x ∨ xs.foldl statusMin x ∈ xs := by
  induction xs generalizing x with
  | nil => exact Or.inl rfl
  | cons y ys ih =>
    rcases ih (statusMin x y) with h | h
    · rcases statusMin_choice x y with h' | h'
      · exact Or.inl (by rw [List.foldl_cons, h, h'])
      · exact Or.inr (by rw [List.foldl_cons, h, h']; exact List.mem_cons_self y ys)
    · exact Or.inr (List.mem_cons_of_mem y h)

lemma foldl_statusMin_le_init (xs : List String) (x : String) :
    strLe (xs.foldl statusMin x) x = true := by
  induction xs generalizing x with
  | nil => exact strLe_refl x
  | cons y ys ih =>
    exact strLe_trans (ih (statusMin x y)) (strLe_statusMin_left x y)

lemma foldl_statusMin_le_mem (xs : List String) (x : String) :
    ∀ y ∈ xs, strLe (xs.foldl statusMin x) y = true := by
  induction xs generalizing x with
  | nil => intro y hy; cases hy
  | cons z zs ih =>
    intro y hy
    rcases List.mem_cons.mp hy with rfl | hy'
    · exact strLe_trans (foldl_statusMin_le_init zs (statusMin x y))
        (strLe_statusMin_right x y)
    · exact ih (statusMin x z) y hy'

/-- C7 (amended): the status query returns NOT_FOUND when no seat holds the
session token; otherwise it returns one of the held payment-status strings,
and that string is lexicographically least among them (MySQL MIN over the
ENUM column compares string values, so COMPLETED < FAILED < PENDING) —
not the least-advanced status in the PENDING-before-terminal sense. -/
theorem bookingStatus_min_characterization (db : List Seat) (bid : String) :
    (sessionStatuses db bid = [] → handleBookingStatus db bid = "NOT_FOUND")
    ∧ (sessionStatuses db bid ≠ [] → handleBookingStatus db bid ∈ sessionStatuses db bid)
    ∧ (∀ st ∈ sessionStatuses db bid, strLe (handleBookingStatus db bid) st = true) := by
  rcases h : sessionStatuses db bid with - | ⟨x, xs⟩
  · refine ⟨fun _ => ?_, fun hne => absurd rfl hne, fun st hst => ?_⟩
    · simp [handleBookingStatus, h]
    · cases hst
  · have hb : handleBookingStatus db bid = xs.foldl statusMin x := by
      simp [handleBookingStatus, h]
    refine ⟨fun hnil => ?_, fun _ => ?_, fun st hst => ?_⟩
    · cases hnil
    · rw [hb]
      rcases foldl_statusMin_mem xs x with h' | h'
      · rw [h']
        exact List.mem_cons_self x xs
      · exact List.mem_cons_of_mem x h'
    · rw [hb]
      rcases List.mem_cons.mp hst with rfl | hst'
      · exact foldl_statusMin_le_init xs st
      · exact foldl_statusMin_le_mem xs x st hst'

/-- C7 witness: the characterization applied to the concrete mixed-state
store. -/
theorem bookingStatus_min_characterization_witness :
    handleBookingStatus mixedSessionDb "s" ∈ sessionStatuses mixedSessionDb "s"
    ∧ strLe (handleBookingStatus mixedSessionDb "s") "PENDING" = true := by
  have h := bookingStatus_min_characterization mixedSessionDb "s"
  exact ⟨h.2.1 (by decide), h.2.2 "PENDING" (by decide)⟩

/-- C7 counterexample: for a session holding one COMPLETED and one PENDING
seat, the query returns "COMPLETED" (the lexicographic minimum), while the
least-advanced status in the spec's sense is "PENDING". -/
theorem bookingStatus_not_least_advanced :
    handleBookingStatus mixedSessionDb "s" = "COMPLETED"
    ∧ specLeastAdvanced (sessionStatuses mixedSessionDb "s") = "PENDING"
    ∧ handleBookingStatus mixedSessionDb "s" ≠
        specLeastAdvanced (sessionStatuses mixedSessionDb "s") := by
  refine ⟨by decide, by decide, by decide⟩

/-! ### Counting lemmas for the bookable-row checks -/

lemma nodup_filter_map_id {db : List Seat} (hN : (db.map Seat.id).Nodup)
    (p : Seat → Bool) : ((db.filter p).map Seat.id).Nodup :=
  List.Nodup.sublist (List.Sublist.map Seat.id (List.filter_sublist db)) hN

lemma length_le_dedup_of_nodup_subset {l m : List Nat} (hl : l.Nodup)
    (hsub : ∀ x ∈ l, x ∈ m) : l.length ≤ m.dedup.length := by
  have h1 : l ⊆ m.dedup := fun x hx => List.mem_dedup.mpr (hsub x hx)
  exact (hl.subperm h1).length_le

lemma dedup_length_lt_of_not_nodup {m : List Nat} (h : ¬ m.Nodup) :
    m.dedup.length < m.length := by
  rcases Nat.lt_or_ge m.dedup.length m.length with hlt | hge
  · exact hlt
  · exfalso
    have hs := List.dedup_sublist m
    have heq := hs.eq_of_length (Nat.le_antisymm hs.length_le hge)
    exact h (heq ▸ List.nodup_dedup m)

lemma bookableCount_lt_of_dup {db : List Seat} {ids : List Nat}
    (hN : (db.map Seat.id).Nodup) (hdup : ¬ ids.Nodup) :
    (db.filter (fun s => ids.contains s.id && bookable s)).length < ids.length := by
  have hnd := nodup_filter_map_id hN (fun s => ids.contains s.id && bookable s)
  have hsub : ∀ x ∈ (db.filter (fun s => ids.contains s.id && bookable s)).map Seat.id,
      x ∈ ids := by
    intro x hx
    rcases List.mem_map.mp hx with ⟨t, ht, rfl⟩
    have hp := (List.mem_filter.mp ht).2
    rw [Bool.and_eq_true] at hp
    exact List.elem_iff.mp hp.1
  have h1 : ((db.filter (fun s => ids.contains s.id && bookable s)).map Seat.id).length
      ≤ ids.dedup.length := length_le_dedup_of_nodup_subset hnd hsub
  rw [List.length_map] at h1
  exact Nat.lt_of_le_of_lt h1 (dedup_length_lt_of_not_nodup hdup)

/-- C10: a request list naming the same seat id more than once fails with
SeatsUnavailable in every strategy (given the free acquisition of the
Redis lock for the third one), because the count of distinct matching rows
is compared against the length of the request list including duplicates. -/
theorem duplicate_ids_fail_seatsUnavailable (db : List Seat) (r : Redis)
    (uid : Nat) (ids : List Nat) (bid : String) (now : Nat)
    (hdup : ¬ ids.Nodup) (hN : (db.map Seat.id).Nodup) :
    PessimisticLocking db uid ids bid now = (db, some .seatsUnavailable)
    ∧ OptimisticLocking db uid ids bid now = (db, some .seatsUnavailable)
    ∧ (∀ first rest, ids = first :: rest →
        redisGet r ("seat_lock:" ++ toString first) = none →
        BookMyShowTimeoutImp db r uid ids bid now =
          (db, ⟨"seat_lock:" ++ toString first, "user:" ++ toString uid, now + 60⟩ :: r,
           some .seatsUnavailable)) := by
  have hne : ids ≠ [] := by
    intro h
    subst h
    exact hdup List.nodup_nil
  have hempty : ids.isEmpty = false := List.isEmpty_eq_false.mpr hne
  have hcount : (db.filter (fun s => ids.contains s.id && bookable s)).length ≠ ids.length :=
    Nat.ne_of_lt (bookableCount_lt_of_dup hN hdup)
  refine ⟨?_, ?_, ?_⟩
  · simp only [PessimisticLocking, hempty]
    rw [if_neg (by simp), if_pos hcount]
  · have hcount' : (optimisticRead db ids).length ≠ ids.length := by
      simpa [optimisticRead] using hcount
    simp only [OptimisticLocking, OptimisticLockingW, hempty]
    rw [if_neg (by simp), if_pos hcount']
  · rintro first rest rfl hget
    simp only [BookMyShowTimeoutImp, redisSetNX, hget, Option.isSome_none,
      Bool.false_eq_true, if_false]
    rw [if_pos trivial, if_pos hcount]

/-- C10 witness: requesting the bookable seat 1 twice fails in all three
strategies. -/
theorem duplicate_ids_fail_seatsUnavailable_witness :
    PessimisticLocking [seatRow] 2 [1, 1] "b" 0 = ([seatRow], some .seatsUnavailable)
    ∧ OptimisticLocking [seatRow] 2 [1, 1] "b" 0 = ([seatRow], some .seatsUnavailable)
    ∧ BookMyShowTimeoutImp [seatRow] [] 2 [1, 1] "b" 0 =
        ([seatRow], [⟨"seat_lock:1", "user:2", 60⟩], some .seatsUnavailable) := by
  have h := duplicate_ids_fail_seatsUnavailable [seatRow] [] 2 [1, 1] "b" 0
    (by decide) (by decide)
  exact ⟨h.1, h.2.1, h.2.2 1 [1] rfl (by decide)⟩

/-! ### Rollback on failure -/

lemma PessimisticLocking_error {db : List Seat} {uid : Nat} {ids : List Nat}
    {bid : String} {now : Nat} {dbo : List Seat} {e : BookErr}
    (h : PessimisticLocking db uid ids bid now = (dbo, some e)) : dbo = db := by
  simp only [PessimisticLocking] at h
  split at h
  · injection h with h1 h2
    exact h1.symm
  · split at h
    · injection h with h1 h2
      exact h1.symm
    · injection h with h1 h2
      exact Option.noConfusion h2

lemma OptimisticLockingW_error {dbR dbW : List Seat} {uid : Nat} {ids : List Nat}
    {bid : String} {now : Nat} {dbo : List Seat} {e : BookErr}
    (h : OptimisticLockingW dbR dbW uid ids bid now = (dbo, some e)) : dbo = dbW := by
  simp only [OptimisticLockingW] at h
  split at h
  · injection h with h1 h2
    exact h1.symm
  · split at h
    · injection h with h1 h2
      exact h1.symm
    · split at h
      · injection h with h1 h2
        exact h1.symm
      · injection h with h1 h2
        exact Option.noConfusion h2

lemma BookMyShowTimeoutImp_error {db : List Seat} {r : Redis} {uid : Nat}
    {ids : List Nat} {bid : String} {now : Nat} {dbo : List Seat} {r2 : Redis}
    {e : BookErr} (h : BookMyShowTimeoutImp db r uid ids bid now = (dbo, r2, some e)) :
    dbo = db := by
  cases ids with
  | nil =>
    unfold BookMyShowTimeoutImp at h
    injection h with h1 h2
    exact h1.symm
  | cons first rest =>
    rcases hg : (redisGet r ("seat_lock:" ++ toString first)).isSome with - | -
    · simp only [BookMyShowTimeoutImp, redisSetNX, hg, Bool.false_eq_true, if_false] at h
      rw [if_pos trivial] at h
      split at h
      · injection h with h1 h2
        exact h1.symm
      · injection h with h1 h2
        injection h2 with h2a h2b
        exact Option.noConfusion h2b
    · simp only [BookMyShowTimeoutImp, redisSetNX, hg, if_true] at h
      rw [if_neg (by simp)] at h
      injection h with h1 h2
      exact h1.symm

lemma handlePaymentWebhookW_error {dbR dbW : List Seat} {r : Redis}
    {sid st : String} {dbo : List Seat} {r2 : Redis} {e : BookErr}
    (h : handlePaymentWebhookW dbR dbW r sid st = (dbo, r2, some e)) :
    dbo = dbW ∧ r2 = r := by
  simp only [handlePaymentWebhookW] at h
  split at h
  · injection h with h1 h2
    injection h2 with h2a h2b
    exact ⟨h1.symm, h2a.symm⟩
  · split at h
    · injection h with h1 h2
      injection h2 with h2a h2b
      exact ⟨h1.symm, h2a.symm⟩
    · injection h with h1 h2
      injection h2 with h2a h2b
      exact Option.noConfusion h2b

lemma length_le_one_of_nodup_all_eq {l : List Nat} (hl : l.Nodup) {a : Nat}
    (h : ∀ x ∈ l, x = a) : l.length ≤ 1 := by
  rcases l with - | ⟨x, - | ⟨y, rest⟩⟩
  · exact Nat.zero_le 1
  · exact Nat.le_refl 1
  · exfalso
    have hx := h x (by simp)
    have hy := h y (by simp)
    have hxy : x ≠ y := by
      have hc := List.nodup_cons.mp hl
      exact fun hxy => hc.1 (hxy ▸ List.mem_cons_self y rest)
    exact hxy (hx.trans hy.symm)

lemma pessimistic_two_seat_unavailable {db : List Seat} {uid : Nat} {bid : String}
    {now : Nat} {sA sB : Seat} (hN : (db.map Seat.id).Nodup) (hA : sA ∈ db)
    (hB : sB ∈ db) (hbA : bookable sA = true) (hbB : bookable sB = false)
    (hne : sA.id ≠ sB.id) :
    PessimisticLocking db uid [sA.id, sB.id] bid now = (db, some .seatsUnavailable) := by
  have hnd := nodup_filter_map_id hN (fun s => [sA.id, sB.id].contains s.id && bookable s)
  have hall : ∀ x ∈ (db.filter
      (fun s => [sA.id, sB.id].contains s.id && bookable s)).map Seat.id, x = sA.id := by
    intro x hx
    rcases List.mem_map.mp hx with ⟨t, ht, rfl⟩
    rcases List.mem_filter.mp ht with ⟨htdb, hp⟩
    rw [Bool.and_eq_true] at hp
    have hmem : t.id ∈ [sA.id, sB.id] := List.elem_iff.mp hp.1
    rcases List.mem_cons.mp hmem with h1 | h1
    · exact h1
    · have h1' : t.id = sB.id := by simpa using h1
      have hts : t = sB := List.inj_on_of_nodup_map hN htdb hB h1'
      rw [hts, hbB] at hp
      exact absurd hp.2 (by simp)
  have hle := length_le_one_of_nodup_all_eq hnd hall
  rw [List.length_map] at hle
  have hcount : (db.filter
      (fun s => [sA.id, sB.id].contains s.id && bookable s)).length ≠ [sA.id, sB.id].length := by
    simp only [List.length_cons, List.length_nil]
    omega
  simp only [PessimisticLocking]
  rw [if_neg (by simp), if_pos hcount]

/-- C5: no failed operation mutates the seat store — every error return of
the three lockers and of the webhook leaves the store exactly as the
transaction found it (and the webhook also leaves the lock service
untouched); in particular a pessimistic request for a bookable seat A
together with an already-taken seat B fails with SeatsUnavailable and
leaves the store, hence seat A, completely unchanged. -/
theorem failed_attempts_change_nothing :
    (∀ db uid ids bid now dbo e,
        PessimisticLocking db uid ids bid now = (dbo, some e) → dbo = db)
    ∧ (∀ dbR dbW uid ids bid now dbo e,
        OptimisticLockingW dbR dbW uid ids bid now = (dbo, some e) → dbo = dbW)
    ∧ (∀ db r uid ids bid now dbo r2 e,
        BookMyShowTimeoutImp db r uid ids bid now = (dbo, r2, some e) → dbo = db)
    ∧ (∀ dbR dbW r sid st dbo r2 e,
        handlePaymentWebhookW dbR dbW r sid st = (dbo, r2, some e) → dbo = dbW ∧ r2 = r)
    ∧ (∀ db uid bid now sA sB, (db.map Seat.id).Nodup → sA ∈ db → sB ∈ db →
        bookable sA = true → bookable sB = false → sA.id ≠ sB.id →
        PessimisticLocking db uid [sA.id, sB.id] bid now = (db, some .seatsUnavailable)) :=
  ⟨fun _ _ _ _ _ _ _ h => PessimisticLocking_error h,
   fun _ _ _ _ _ _ _ _ h => OptimisticLockingW_error h,
   fun _ _ _ _ _ _ _ _ _ h => BookMyShowTimeoutImp_error h,
   fun _ _ _ _ _ _ _ _ h => handlePaymentWebhookW_error h,
   fun _ _ _ _ _ _ hN hA hB hbA hbB hne =>
     pessimistic_two_seat_unavailable hN hA hB hbA hbB hne⟩

/-- C5 witness: the all-or-nothing theorem applied to concrete failing runs
of each operation and to the concrete {A bookable, B taken} scenario. -/
theorem failed_attempts_change_nothing_witness :
    PessimisticLocking [seatRow, seatTakenB] 7 [seatRow.id, seatTakenB.id] "b" 0 =
      ([seatRow, seatTakenB], some .seatsUnavailable)
    ∧ ([seatTakenB] : List Seat) = [seatTakenB]
    ∧ ([{ seatRow with version := 1 }] : List Seat) = [{ seatRow with version := 1 }]
    ∧ ([seatRow] : List Seat) = [seatRow]
    ∧ (([] : List Seat) = [] ∧ ([] : Redis) = []) := by
  refine ⟨?_, ?_, ?_, ?_, ?_⟩
  · exact failed_attempts_change_nothing.2.2.2.2 [seatRow, seatTakenB] 7 "b" 0
      seatRow seatTakenB (by decide) (by decide) (by decide) (by decide) (by decide)
      (by decide)
  · exact failed_attempts_change_nothing.1 [seatTakenB] 9 [2] "b" 0 [seatTakenB]
      .seatsUnavailable (by decide)
  · exact failed_attempts_change_nothing.2.1 [seatRow] [{ seatRow with version := 1 }]
      9 [1] "b" 0 [{ seatRow with version := 1 }] .optimisticConflict (by decide)
  · exact failed_attempts_change_nothing.2.2.1 [seatRow]
      [⟨"seat_lock:1", "user:9", 60⟩] 2 [1] "b" 0 [seatRow]
      [⟨"seat_lock:1", "user:9", 60⟩] (.lockContention (some "user:9")) (by decide)
  · exact failed_attempts_change_nothing.2.2.2.1 [] [] [] "s" "X" [] [] .notFound
      (by decide)

/-! ### Membership and lookup helpers -/

lemma contains_eq_true_of_mem {l : List Nat} {a : Nat} (h : a ∈ l) :
    l.contains a = true :=
  List.elem_iff.mpr h

lemma contains_eq_false_of_not_mem {l : List Nat} {a : Nat} (h : a ∉ l) :
    l.contains a = false := by
  rcases hb : l.contains a with - | -
  · rfl
  · exact absurd (List.elem_iff.mp hb) h

lemma lookupVersion_of_mem : ∀ {pairs : List (Nat × Nat)},
    (pairs.map Prod.fst).Nodup → ∀ {k v : Nat}, (k, v) ∈ pairs →
    lookupVersion pairs k = v := by
  intro pairs
  induction pairs with
  | nil =>
    intro _ k v hmem
    cases hmem
  | cons p ps ih =>
    intro hnd k v hmem
    rcases List.mem_cons.mp hmem with rfl | hmem'
    · unfold lookupVersion
      rw [List.find?_cons_of_pos _ (by simp)]
    · have hk : p.1 ≠ k := by
        intro hpk
        have hin : k ∈ ps.map Prod.fst := List.mem_map.mpr ⟨(k, v), hmem', rfl⟩
        rw [List.map_cons, List.nodup_cons] at hnd
        exact hnd.1 (hpk ▸ hin)
      unfold lookupVersion
      rw [List.find?_cons_of_neg _ (by simp [hk])]
      exact ih (List.nodup_cons.mp (List.map_cons Prod.fst p ps ▸ hnd)).2 hmem'

/-! ### Closed form of a successful OptimisticLocking write loop -/

lemma optimisticBump_id (uid : Nat) (bid : String) (now : Nat) (s : Seat) :
    (optimisticBump uid bid now s).id = s.id := rfl

lemma optimisticWriteLoop_ok (uid : Nat) (bid : String) (now : Nat)
    (pairs : List (Nat × Nat)) :
    ∀ (ids : List Nat) (db : List Seat), ids.Nodup →
      (∀ j ∈ ids, ∃ s ∈ db, s.id = j) →
      (∀ s ∈ db, s.id ∈ ids → bookable s = true ∧ lookupVersion pairs s.id = s.version) →
      optimisticWriteLoop uid bid now pairs db ids =
        .ok (db.map (optimisticApply uid bid now ids)) := by
  intro ids
  induction ids with
  | nil =>
    intro db _ _ _
    have hmap : db.map (optimisticApply uid bid now []) = db := by
      rw [show optimisticApply uid bid now [] = id from rfl, List.map_id]
    rw [hmap]
    rfl
  | cons sid rest ih =>
    intro db hnd hex hprop
    obtain ⟨s0, hs0db, hs0id⟩ := hex sid (List.mem_cons_self _ _)
    have h0 := hprop s0 hs0db (by rw [hs0id]; exact List.mem_cons_self _ _)
    have hsidrest : sid ∉ rest := (List.nodup_cons.mp hnd).1
    have hndrest : rest.Nodup := (List.nodup_cons.mp hnd).2
    have hhit0 : (s0.id == sid && s0.version == lookupVersion pairs sid && bookable s0)
        = true := by
      have hv : lookupVersion pairs sid = s0.version := hs0id ▸ h0.2
      simp [hs0id, h0.1, hv]
    have hcnt : (db.filter (fun s =>
        s.id == sid && s.version == lookupVersion pairs sid && bookable s)).length ≠ 0 := by
      intro hz
      rw [List.length_eq_zero] at hz
      exact (List.filter_eq_nil_iff.mp hz s0 hs0db) hhit0
    have key : optimisticWriteLoop uid bid now pairs db (sid :: rest) =
        optimisticWriteLoop uid bid now pairs
          (db.map (fun s => if s.id == sid && s.version == lookupVersion pairs sid && bookable s
            then optimisticBump uid bid now s else s)) rest := by
      simp only [optimisticWriteLoop, optimisticUpdateSeat]
      rw [if_neg hcnt]
    have hex' : ∀ j ∈ rest, ∃ s ∈ db.map (fun s =>
        if s.id == sid && s.version == lookupVersion pairs sid && bookable s
        then optimisticBump uid bid now s else s), s.id = j := by
      intro j hj
      obtain ⟨s, hs, hsid⟩ := hex j (List.mem_cons_of_mem _ hj)
      refine ⟨_, List.mem_map_of_mem _ hs, ?_⟩
      by_cases hh : (s.id == sid && s.version == lookupVersion pairs sid && bookable s) = true
      · rw [if_pos hh]
        exact hsid
      · rw [if_neg hh]
        exact hsid
    have hprop' : ∀ t ∈ db.map (fun s =>
        if s.id == sid && s.version == lookupVersion pairs sid && bookable s
        then optimisticBump uid bid now s else s), t.id ∈ rest →
        bookable t = true ∧ lookupVersion pairs t.id = t.version := by
      intro t ht htid
      obtain ⟨s, hs, rfl⟩ := List.mem_map.mp ht
      by_cases hh : (s.id == sid && s.version == lookupVersion pairs sid && bookable s) = true
      · exfalso
        rw [Bool.and_eq_true, Bool.and_eq_true] at hh
        have hsid : s.id = sid := beq_iff_eq.mp hh.1.1
        rw [if_pos (by rw [Bool.and_eq_true, Bool.and_eq_true]; exact hh)] at htid
        rw [optimisticBump_id, hsid] at htid
        exact hsidrest htid
      · rw [if_neg hh] at htid ⊢
        exact hprop s hs (List.mem_cons_of_mem _ htid)
    rw [key, ih _ hndrest hex' hprop', List.map_map]
    refine congrArg Except.ok (List.map_congr_left ?_)
    intro s hs
    simp only [Function.comp_apply]
    by_cases hid : s.id = sid
    · have hp := hprop s hs (by rw [hid]; exact List.mem_cons_self _ _)
      have hh : (s.id == sid && s.version == lookupVersion pairs sid && bookable s) = true := by
        have hv : lookupVersion pairs sid = s.version := hid ▸ hp.2
        simp [hid, hp.1, hv]
      rw [if_pos hh]
      unfold optimisticApply
      rw [if_neg (by rw [optimisticBump_id, hid,
            contains_eq_false_of_not_mem hsidrest]; simp),
          if_pos (by rw [contains_eq_true_of_mem (by rw [hid]; exact List.mem_cons_self _ _)])]
    · have hh : (s.id == sid && s.version == lookupVersion pairs sid && bookable s) = false := by
        simp [hid]
      rw [if_neg (by rw [hh]; simp)]
      unfold optimisticApply
      rw [List.contains_cons]
      have : (s.id == sid) = false := by
        simp [hid]
      rw [this, Bool.false_or]

lemma OptimisticLocking_success {db dbo : List Seat} {uid : Nat} {ids : List Nat}
    {bid : String} {now : Nat} (hN : (db.map Seat.id).Nodup)
    (h : OptimisticLocking db uid ids bid now = (dbo, none)) :
    dbo = db.map (optimisticApply uid bid now ids) := by
  simp only [OptimisticLocking, OptimisticLockingW] at h
  split at h
  · injection h with h1 h2
    exact Option.noConfusion h2
  · split at h
    · injection h with h1 h2
      exact Option.noConfusion h2
    · rename_i hlen
      rw [not_ne_iff] at hlen
      have hkeys : (optimisticRead db ids).map Prod.fst =
          (db.filter (fun s => ids.contains s.id && bookable s)).map Seat.id := by
        simp only [optimisticRead]
        rw [List.map_map]
        rfl
      have hknd : ((optimisticRead db ids).map Prod.fst).Nodup := by
        rw [hkeys]
        exact nodup_filter_map_id hN _
      have hsub : ∀ x ∈ (optimisticRead db ids).map Prod.fst, x ∈ ids := by
        rw [hkeys]
        intro x hx
        rcases List.mem_map.mp hx with ⟨t, ht, rfl⟩
        have hp := (List.mem_filter.mp ht).2
        rw [Bool.and_eq_true] at hp
        exact List.elem_iff.mp hp.1
      have hperm : List.Perm ((optimisticRead db ids).map Prod.fst) ids := by
        refine (hknd.subperm (fun x hx => hsub x hx)).perm_of_length_le ?_
        rw [List.length_map, hlen]
      have hidnd : ids.Nodup := hperm.nodup_iff.mp hknd
      have hex : ∀ j ∈ ids, ∃ s ∈ db, s.id = j := by
        intro j hj
        have hj' : j ∈ (optimisticRead db ids).map Prod.fst := hperm.mem_iff.mpr hj
        rw [hkeys] at hj'
        rcases List.mem_map.mp hj' with ⟨t, ht, rfl⟩
        exact ⟨t, List.mem_of_mem_filter ht, rfl⟩
      have hprop : ∀ s ∈ db, s.id ∈ ids →
          bookable s = true ∧ lookupVersion (optimisticRead db ids) s.id = s.version := by
        intro s hs hsid
        have hs' : s.id ∈ (optimisticRead db ids).map Prod.fst := hperm.mem_iff.mpr hsid
        rw [hkeys] at hs'
        rcases List.mem_map.mp hs' with ⟨t, ht, htid⟩
        have hts : t = s :=
          List.inj_on_of_nodup_map hN (List.mem_of_mem_filter ht) hs htid
        subst hts
        have hp := (List.mem_filter.mp ht).2
        rw [Bool.and_eq_true] at hp
        refine ⟨hp.2, ?_⟩
        have hmem : (t.id, t.version) ∈ optimisticRead db ids := by
          simp only [optimisticRead]
          exact List.mem_map_of_mem _ ht
        exact lookupVersion_of_mem hknd hmem
      rw [optimisticWriteLoop_ok uid bid now (optimisticRead db ids) ids db hidnd hex hprop] at h
      injection h with h1 h2
      exact h1.symm

lemma optimisticWriteLoop_error (uid : Nat) (bid : String) (now : Nat)
    (pairs : List (Nat × Nat)) :
    ∀ (ids : List Nat) (db : List Seat) (e : BookErr),
      optimisticWriteLoop uid bid now pairs db ids = .error e →
      e = .optimisticConflict := by
  intro ids
  induction ids with
  | nil =>
    intro db e h
    exact Except.noConfusion h
  | cons sid rest ih =>
    intro db e h
    simp only [optimisticWriteLoop] at h
    split at h
    · injection h with h1
      exact h1.symm
    · exact ih _ _ h

/-- C3: on a non-empty request, a successful OptimisticLocking run maps
every requested seat to its reserved image — version incremented by
exactly 1, status PENDING, occupant and session token set — and leaves
every other seat untouched; any run whose write loop hits a zero-row
conditional update (a concurrent winner) aborts the whole transaction with
OptimisticConflict, and every failing run leaves the store exactly as the
updates found it (zero seats mutated). -/
theorem optimistic_all_or_nothing :
    (∀ db uid ids bid now dbo, (db.map Seat.id).Nodup →
        OptimisticLocking db uid ids bid now = (dbo, none) →
        ids ≠ [] ∧ dbo = db.map (optimisticApply uid bid now ids))
    ∧ (∀ dbR dbW uid ids bid now dbo e,
        OptimisticLockingW dbR dbW uid ids bid now = (dbo, some e) → dbo = dbW)
    ∧ (∀ dbR dbW uid ids bid now e, ids ≠ [] →
        (optimisticRead dbR ids).length = ids.length →
        optimisticWriteLoop uid bid now (optimisticRead dbR ids) dbW ids = .error e →
        OptimisticLockingW dbR dbW uid ids bid now = (dbW, some .optimisticConflict)) := by
  refine ⟨?_, ?_, ?_⟩
  · intro db uid ids bid now dbo hN h
    refine ⟨?_, OptimisticLocking_success hN h⟩
    intro hnil
    subst hnil
    simp only [OptimisticLocking, OptimisticLockingW, List.isEmpty_nil, if_true] at h
    injection h with h1 h2
    exact Option.noConfusion h2
  · intro dbR dbW uid ids bid now dbo e h
    exact OptimisticLockingW_error h
  · intro dbR dbW uid ids bid now e hne hlen hloop
    have hconflict := optimisticWriteLoop_error uid bid now _ ids dbW e hloop
    simp only [OptimisticLockingW]
    rw [if_neg (by simp [List.isEmpty_iff, hne]), if_neg (by rw [not_ne_iff]; exact hlen),
      hloop]
    rw [hconflict]

/-- C3 witness: a concrete successful two-seat run matches the closed form,
and a concrete interfered run (seat version bumped by a concurrent winner
between the SELECT and the UPDATE) aborts with OptimisticConflict leaving
the store unchanged. -/
theorem optimistic_all_or_nothing_witness :
    ([1, 2] ≠ ([] : List Nat)
      ∧ (OptimisticLocking [seatRow, seatRow2] 9 [1, 2] "b" 0).1 =
        [seatRow, seatRow2].map (optimisticApply 9 "b" 0 [1, 2]))
    ∧ OptimisticLockingW [seatRow] [{ seatRow with version := 1 }] 9 [1] "b" 0 =
        ([{ seatRow with version := 1 }], some .optimisticConflict) := by
  constructor
  · exact optimistic_all_or_nothing.1 [seatRow, seatRow2] 9 [1, 2] "b" 0
      (OptimisticLocking [seatRow, seatRow2] 9 [1, 2] "b" 0).1 (by decide) (by decide)
  · exact optimistic_all_or_nothing.2.2 [seatRow] [{ seatRow with version := 1 }]
      9 [1] "b" 0 .optimisticConflict (by decide) (by decide) (by rfl)

/-! ### Closed form of a successful webhook write loop -/

lemma webhookBump_id (st : String) (s : Seat) : (webhookBump st s).id = s.id := rfl

lemma webhookWriteLoop_ok (st : String) :
    ∀ (pl : List (Nat × Nat)) (db : List Seat),
      (pl.map Prod.fst).Nodup →
      (∀ p ∈ pl, ∃ s ∈ db, s.id = p.1 ∧ s.version = p.2) →
      (∀ s ∈ db, ∀ p ∈ pl, s.id = p.1 → s.version = p.2) →
      webhookWriteLoop st db pl =
        .ok (db.map (fun s => if (pl.map Prod.fst).contains s.id
          then webhookBump st s else s)) := by
  intro pl
  induction pl with
  | nil =>
    intro db _ _ _
    have hmap : db.map (fun s => if (([] : List (Nat × Nat)).map Prod.fst).contains s.id
        then webhookBump st s else s) = db := by
      rw [show (fun (s : Seat) => if (([] : List (Nat × Nat)).map Prod.fst).contains s.id
        then webhookBump st s else s) = id from rfl, List.map_id]
    rw [hmap]
    rfl
  | cons p ps ih =>
    intro db hnd hex hver
    obtain ⟨s0, hs0, hs0id, hs0v⟩ := hex p (List.mem_cons_self _ _)
    have hhit0 : (s0.id == p.1 && s0.version == p.2) = true := by
      simp [hs0id, hs0v]
    have hcnt : (db.filter (fun s => s.id == p.1 && s.version == p.2)).length ≠ 0 := by
      intro hz
      rw [List.length_eq_zero] at hz
      exact (List.filter_eq_nil_iff.mp hz s0 hs0) hhit0
    have key : webhookWriteLoop st db (p :: ps) =
        webhookWriteLoop st (db.map (fun s => if s.id == p.1 && s.version == p.2
          then webhookBump st s else s)) ps := by
      simp only [webhookWriteLoop, webhookUpdateSeat]
      rw [if_neg hcnt]
    have hp1not : p.1 ∉ ps.map Prod.fst := by
      rw [List.map_cons, List.nodup_cons] at hnd
      exact hnd.1
    have hndps : (ps.map Prod.fst).Nodup := by
      rw [List.map_cons, List.nodup_cons] at hnd
      exact hnd.2
    have hex' : ∀ q ∈ ps, ∃ s ∈ db.map (fun s => if s.id == p.1 && s.version == p.2
        then webhookBump st s else s), s.id = q.1 ∧ s.version = q.2 := by
      intro q hq
      obtain ⟨s, hs, hsid, hsv⟩ := hex q (List.mem_cons_of_mem _ hq)
      have hq1 : q.1 ≠ p.1 := fun he => hp1not (he ▸ List.mem_map_of_mem Prod.fst hq)
      have hh : (s.id == p.1 && s.version == p.2) = false := by
        simp [hsid, hq1]
      refine ⟨_, List.mem_map_of_mem _ hs, ?_, ?_⟩
      · rw [if_neg (by simp [hh])]
        exact hsid
      · rw [if_neg (by simp [hh])]
        exact hsv
    have hver' : ∀ t ∈ db.map (fun s => if s.id == p.1 && s.version == p.2
        then webhookBump st s else s), ∀ q ∈ ps, t.id = q.1 → t.version = q.2 := by
      intro t ht q hq htid
      obtain ⟨s, hs, rfl⟩ := List.mem_map.mp ht
      have hq1 : q.1 ≠ p.1 := fun he => hp1not (he ▸ List.mem_map_of_mem Prod.fst hq)
      by_cases hh : (s.id == p.1 && s.version == p.2) = true
      · exfalso
        rw [Bool.and_eq_true] at hh
        have hsp1 : s.id = p.1 := beq_iff_eq.mp hh.1
        rw [if_pos (by rw [Bool.and_eq_true]; exact hh)] at htid
        rw [webhookBump_id] at htid
        exact hq1 (htid.symm.trans hsp1)
      · rw [if_neg hh] at htid ⊢
        exact hver s hs q (List.mem_cons_of_mem _ hq) htid
    rw [key, ih _ hndps hex' hver', List.map_map]
    refine congrArg Except.ok (List.map_congr_left ?_)
    intro s hs
    simp only [Function.comp_apply]
    by_cases hid : s.id = p.1
    · have hv : s.version = p.2 := hver s hs p (List.mem_cons_self _ _) hid
      have hh : (s.id == p.1 && s.version == p.2) = true := by
        simp [hid, hv]
      rw [show (if (s.id == p.1 && s.version == p.2) = true then webhookBump st s else s)
            = webhookBump st s from if_pos hh]
      rw [if_neg (by rw [webhookBump_id, hid, contains_eq_false_of_not_mem hp1not]; simp)]
      rw [if_pos (by rw [List.map_cons]
                     exact contains_eq_true_of_mem (by rw [hid]; exact List.mem_cons_self _ _))]
    · have hh : (s.id == p.1 && s.version == p.2) = false := by
        simp [hid]
      rw [show (if (s.id == p.1 && s.version == p.2) = true then webhookBump st s else s)
            = s from if_neg (by simp [hh])]
      rw [List.map_cons, List.contains_cons]
      have hb : (s.id == p.1) = false := by
        simp [hid]
      rw [hb, Bool.false_or]

lemma handlePaymentWebhook_success {db dbo : List Seat} {r r2 : Redis}
    {sid st : String} (hN : (db.map Seat.id).Nodup)
    (h : handlePaymentWebhook db r sid st = (dbo, r2, none)) :
    dbo = db.map (webhookApply sid st) := by
  simp only [handlePaymentWebhook, handlePaymentWebhookW] at h
  split at h
  · injection h with h1 h2
    injection h2 with h2a h2b
    exact Option.noConfusion h2b
  · have hplkeys : (((db.filter (sessionPending sid)).map
        (fun s => (s.id, s.version))).map Prod.fst) =
        (db.filter (sessionPending sid)).map Seat.id := by
      rw [List.map_map]
      rfl
    have hnd' : (((db.filter (sessionPending sid)).map
        (fun s => (s.id, s.version))).map Prod.fst).Nodup := by
      rw [hplkeys]
      exact nodup_filter_map_id hN _
    have hex : ∀ p ∈ (db.filter (sessionPending sid)).map (fun s => (s.id, s.version)),
        ∃ s ∈ db, s.id = p.1 ∧ s.version = p.2 := by
      intro p hp
      rcases List.mem_map.mp hp with ⟨t, ht, rfl⟩
      exact ⟨t, List.mem_of_mem_filter ht, rfl, rfl⟩
    have hver : ∀ s ∈ db, ∀ p ∈ (db.filter (sessionPending sid)).map
        (fun s => (s.id, s.version)), s.id = p.1 → s.version = p.2 := by
      intro s hs p hp hid
      rcases List.mem_map.mp hp with ⟨t, ht, rfl⟩
      have hts : t = s :=
        List.inj_on_of_nodup_map hN (List.mem_of_mem_filter ht) hs hid.symm
      rw [← hts]
    rw [webhookWriteLoop_ok st ((db.filter (sessionPending sid)).map
      (fun s => (s.id, s.version))) db hnd' hex hver] at h
    injection h with h1 h2
    rw [← h1]
    refine List.map_congr_left ?_
    intro s hs
    by_cases hsp : sessionPending sid s = true
    · have hmem : s ∈ db.filter (sessionPending sid) := List.mem_filter.mpr ⟨hs, hsp⟩
      have hc : (((db.filter (sessionPending sid)).map
          (fun s => (s.id, s.version))).map Prod.fst).contains s.id = true := by
        rw [hplkeys]
        exact contains_eq_true_of_mem (List.mem_map_of_mem _ hmem)
      rw [if_pos hc]
      unfold webhookApply
      rw [if_pos hsp]
    · have hc : (((db.filter (sessionPending sid)).map
          (fun s => (s.id, s.version))).map Prod.fst).contains s.id = false := by
        rw [hplkeys]
        apply contains_eq_false_of_not_mem
        intro hmem
        rcases List.mem_map.mp hmem with ⟨t, ht, htid⟩
        have hts : t = s :=
          List.inj_on_of_nodup_map hN (List.mem_of_mem_filter ht) hs htid
        subst hts
        exact hsp (List.mem_filter.mp ht).2
      rw [if_neg (by rw [hc]; simp)]
      unfold webhookApply
      rw [if_neg (by simp [hsp])]

/-- C4: whenever no seat of the store carries the given session token in
PENDING status — in particular after an earlier delivery already finalized
the session — the webhook fails with NotFound and changes neither the seat
store nor the lock service. -/
theorem webhook_replay_notFound (dbR dbW : List Seat) (r : Redis) (sid st : String)
    (h : ∀ s ∈ dbR, sessionPending sid s = false) :
    handlePaymentWebhookW dbR dbW r sid st = (dbW, r, some .notFound) := by
  have hpend : dbR.filter (sessionPending sid) = [] :=
    List.filter_eq_nil_iff.mpr (fun a ha => by simp [h a ha])
  simp only [handlePaymentWebhookW, hpend]
  rfl

/-- C4 witness: a second delivery against the already-finalized session
store yields NotFound with both states unchanged. -/
theorem webhook_replay_notFound_witness :
    handlePaymentWebhookW finalizedSessionDb finalizedSessionDb [] "sess" "COMPLETED" =
      (finalizedSessionDb, [], some .notFound) := by
  exact webhook_replay_notFound finalizedSessionDb finalizedSessionDb [] "sess" "COMPLETED"
    (by decide)

/-- C9: the webhook writes the payload status verbatim with no
terminal-outcome check: delivering status "PENDING" for the pending
session "sess" succeeds, increments the seat's version to 1 while leaving
it PENDING, and the very same session can then be finalized a second time
(here with "COMPLETED"), so finalization is not exactly-once. -/
theorem webhook_status_verbatim :
    handlePaymentWebhook pendingSessionDb [] "sess" "PENDING" =
      ([{ seatRow with isReserved := true, userId := some 4,
                       paymentStatus := "PENDING", paymentTimeout := some 200,
                       paymentSessionId := some "sess", version := 1 }], [], none)
    ∧ handlePaymentWebhook
        [{ seatRow with isReserved := true, userId := some 4,
                        paymentStatus := "PENDING", paymentTimeout := some 200,
                        paymentSessionId := some "sess", version := 1 }] [] "sess" "COMPLETED" =
      ([{ seatRow with isReserved := true, userId := some 4,
                       paymentStatus := "COMPLETED", paymentTimeout := some 200,
                       paymentSessionId := some "sess", version := 2 }], [], none) :=
  ⟨by decide, by decide⟩

/-- C2 (code evaluated at the failing input): one sweep cycle at time 100
over expired PENDING seat 7 resets the seat unconditionally to
bookable/FAILED with occupant, session and deadline cleared — but it
deletes Redis key "lock:seat:7", not the booking's key "seat_lock:7", so
the lock entry the booking created is still present afterwards. -/
theorem sweeper_leaves_booking_lock :
    checkPaymentTimeoutsCycle [pendingSeat7] [lockEntry7] 100 =
      ([{ pendingSeat7 with isReserved := false, paymentStatus := "FAILED",
                            userId := none, reservedUntil := none, paymentTimeout := none,
                            paymentSessionId := none, paymentRedirectUrl := none }],
       [lockEntry7])
    ∧ redisGet (checkPaymentTimeoutsCycle [pendingSeat7] [lockEntry7] 100).2
        "seat_lock:7" = some "user:3" :=
  ⟨by decide, by decide⟩

lemma sweepLoop_version : ∀ (l : List Nat) (db : List Seat) (r : Redis),
    ((sweepLoop db r l).1).map Seat.version = db.map Seat.version := by
  intro l
  induction l with
  | nil =>
    intro db r
    rfl
  | cons sid rest ih =>
    intro db r
    simp only [sweepLoop]
    rw [ih, List.map_map]
    refine List.map_congr_left ?_
    intro s _
    simp only [Function.comp_apply]
    by_cases h : (s.id == sid) = true
    · rw [if_pos h]
      rfl
    · rw [if_neg h]

/-- C1 (amended): only OptimisticLocking and the payment webhook increment
a written seat's version, by exactly 1; PessimisticLocking,
BookMyShowTimeoutImp and the timeout sweeper modify reservation fields
while leaving every seat's version unchanged, so the version counter does
not order those writers. -/
theorem version_discipline :
    (∀ db uid ids bid now,
        ((PessimisticLocking db uid ids bid now).1).map Seat.version =
          db.map Seat.version)
    ∧ (∀ db r uid ids bid now,
        ((BookMyShowTimeoutImp db r uid ids bid now).1).map Seat.version =
          db.map Seat.version)
    ∧ (∀ db r now,
        ((checkPaymentTimeoutsCycle db r now).1).map Seat.version =
          db.map Seat.version)
    ∧ (∀ db uid ids bid now dbo, (db.map Seat.id).Nodup →
        OptimisticLocking db uid ids bid now = (dbo, none) →
        dbo.map Seat.version =
          db.map (fun s => if ids.contains s.id then s.version + 1 else s.version))
    ∧ (∀ db r sid st dbo r2, (db.map Seat.id).Nodup →
        handlePaymentWebhook db r sid st = (dbo, r2, none) →
        dbo.map Seat.version =
          db.map (fun s => if sessionPending sid s then s.version + 1 else s.version)) := by
  refine ⟨?_, ?_, ?_, ?_, ?_⟩
  · intro db uid ids bid now
    simp only [PessimisticLocking]
    split
    · rfl
    · split
      · rfl
      · rw [List.map_map]
        refine List.map_congr_left ?_
        intro s _
        simp only [Function.comp_apply]
        by_cases h : ids.contains s.id = true
        · rw [if_pos h]
          rfl
        · rw [if_neg h]
  · intro db r uid ids bid now
    cases ids with
    | nil => rfl
    | cons first rest =>
      rcases hg : (redisGet r ("seat_lock:" ++ toString first)).isSome with - | -
      · simp only [BookMyShowTimeoutImp, redisSetNX, hg, Bool.false_eq_true, if_false]
        rw [if_pos trivial]
        split
        · rfl
        · rw [List.map_map]
          refine List.map_congr_left ?_
          intro s _
          simp only [Function.comp_apply]
          by_cases h : (first :: rest).contains s.id = true
          · rw [if_pos h]
            rfl
          · rw [if_neg h]
      · simp only [BookMyShowTimeoutImp, redisSetNX, hg, if_true]
        rw [if_neg (by simp)]
  · intro db r now
    simp only [checkPaymentTimeoutsCycle]
    exact sweepLoop_version _ _ _
  · intro db uid ids bid now dbo hN h
    rw [OptimisticLocking_success hN h, List.map_map]
    refine List.map_congr_left ?_
    intro s _
    simp only [Function.comp_apply]
    unfold optimisticApply
    by_cases h' : ids.contains s.id = true
    · rw [if_pos h', if_pos h']
      rfl
    · rw [if_neg h', if_neg h']
  · intro db r sid st dbo r2 hN h
    rw [handlePaymentWebhook_success hN h, List.map_map]
    refine List.map_congr_left ?_
    intro s _
    simp only [Function.comp_apply]
    unfold webhookApply
    by_cases h' : sessionPending sid s = true
    · rw [if_pos h', if_pos h']
      rfl
    · rw [if_neg h', if_neg h']

/-- C1 witness: the version projections evaluated on concrete runs of the
pessimistic locker, a successful optimistic run and a successful webhook
run. -/
theorem version_discipline_witness :
    ((PessimisticLocking [seatRow] 2 [1] "b" 10).1).map Seat.version =
      [seatRow].map Seat.version
    ∧ (OptimisticLocking [seatRow, seatRow2] 9 [1, 2] "b" 0).1.map Seat.version =
        [seatRow, seatRow2].map
          (fun s => if [1, 2].contains s.id then s.version + 1 else s.version)
    ∧ (handlePaymentWebhook pendingSessionDb [] "sess" "COMPLETED").1.map Seat.version =
        pendingSessionDb.map
          (fun s => if sessionPending "sess" s then s.version + 1 else s.version) := by
  refine ⟨?_, ?_, ?_⟩
  · exact version_discipline.1 [seatRow] 2 [1] "b" 10
  · exact version_discipline.2.2.2.1 [seatRow, seatRow2] 9 [1, 2] "b" 0
      (OptimisticLocking [seatRow, seatRow2] 9 [1, 2] "b" 0).1 (by decide) (by decide)
  · exact version_discipline.2.2.2.2 pendingSessionDb [] "sess" "COMPLETED"
      (handlePaymentWebhook pendingSessionDb [] "sess" "COMPLETED").1 [] (by decide)
      (by decide)

/-- C1 counterexample: a successful PessimisticLocking write changes seat
1's reservation fields (occupant none to user 2, session token set) yet
leaves the version counter unchanged at 0, refuting "every successful
write that changes a seat's reservation fields increments version by
exactly 1". -/
theorem pessimistic_write_without_version_bump :
    PessimisticLocking [seatRow] 2 [1] "b" 10 = ([reservePending 2 "b" 10 seatRow], none)
    ∧ (reservePending 2 "b" 10 seatRow).paymentSessionId = some "b"
    ∧ (reservePending 2 "b" 10 seatRow).userId = some 2
    ∧ seatRow.userId = none
    ∧ (reservePending 2 "b" 10 seatRow).version = seatRow.version :=
  ⟨by decide, by decide, by decide, by decide, by decide⟩

/-- C6: BookSeats dispatches on the strategy name, invoking exactly one
locker and returning that locker's outcome unchanged; any unrecognized
name fails with InvalidInput with the seat store and the lock service
untouched. -/
theorem bookSeats_dispatch (db : List Seat) (r : Redis) (uid : Nat)
    (ids : List Nat) (bid : String) (now : Nat) (m : String) :
    BookSeats db r "pessimistic" uid ids bid now =
      ((PessimisticLocking db uid ids bid now).1, r,
       (PessimisticLocking db uid ids bid now).2)
    ∧ BookSeats db r "optimistic" uid ids bid now =
      ((OptimisticLocking db uid ids bid now).1, r,
       (OptimisticLocking db uid ids bid now).2)
    ∧ BookSeats db r "current" uid ids bid now = BookMyShowTimeoutImp db r uid ids bid now
    ∧ (m ≠ "pessimistic" → m ≠ "optimistic" → m ≠ "current" →
        BookSeats db r m uid ids bid now = (db, r, some .invalidInput)) := by
  refine ⟨rfl, rfl, rfl, ?_⟩
  intro h1 h2 h3
  simp only [BookSeats]
  rw [if_neg (by simp [h1]), if_neg (by simp [h2]), if_neg (by simp [h3])]

/-- C6 witness: the dispatch equations at a concrete request, and the
InvalidInput outcome for the unknown strategy name "bogus". -/
theorem bookSeats_dispatch_witness :
    BookSeats [seatRow] [] "current" 2 [1] "b" 0 =
      BookMyShowTimeoutImp [seatRow] [] 2 [1] "b" 0
    ∧ BookSeats [seatRow] [] "bogus" 2 [1] "b" 0 = ([seatRow], [], some .invalidInput) := by
  have h := bookSeats_dispatch [seatRow] [] 2 [1] "b" 0 "bogus"
  exact ⟨h.2.2.1, h.2.2.2 (by decide) (by decide) (by decide)⟩

/-- C8: BookMyShowTimeoutImp derives its lock key from the first seat only;
when the key is free, acquisition installs exactly the entry tagged with
the requester ("user:<uid>") and the bounded lifetime (now + 60 seconds);
when the key is held, it fails immediately with LockContention reporting
the current holder and changes nothing; and whenever the run succeeds the
lock entry is still held afterwards — it is never deleted. -/
theorem bms_lock_discipline (db : List Seat) (r : Redis) (uid first : Nat)
    (rest : List Nat) (bid : String) (now : Nat) :
    (redisGet r ("seat_lock:" ++ toString first) = none →
      (BookMyShowTimeoutImp db r uid (first :: rest) bid now).2.1 =
        ⟨"seat_lock:" ++ toString first, "user:" ++ toString uid, now + 60⟩ :: r)
    ∧ (∀ h, redisGet r ("seat_lock:" ++ toString first) = some h →
        BookMyShowTimeoutImp db r uid (first :: rest) bid now =
          (db, r, some (.lockContention (some h))))
    ∧ ((BookMyShowTimeoutImp db r uid (first :: rest) bid now).2.2 = none →
        redisGet ((BookMyShowTimeoutImp db r uid (first :: rest) bid now).2.1)
          ("seat_lock:" ++ toString first) = some ("user:" ++ toString uid)) := by
  refine ⟨?_, ?_, ?_⟩
  · intro hg
    have hg' : (redisGet r ("seat_lock:" ++ toString first)).isSome = false := by
      rw [hg]
      rfl
    simp only [BookMyShowTimeoutImp, redisSetNX, hg', Bool.false_eq_true, if_false]
    rw [if_pos trivial]
    split
    · rfl
    · rfl
  · intro h hg
    have hg' : (redisGet r ("seat_lock:" ++ toString first)).isSome = true := by
      rw [hg]
      rfl
    simp only [BookMyShowTimeoutImp, redisSetNX, hg', if_true]
    rw [if_neg (by simp)]
    rw [hg]
  · intro hnone
    rcases hg : redisGet r ("seat_lock:" ++ toString first) with - | h
    · have hg' : (redisGet r ("seat_lock:" ++ toString first)).isSome = false := by
        rw [hg]
        rfl
      have hr : (BookMyShowTimeoutImp db r uid (first :: rest) bid now).2.1 =
          ⟨"seat_lock:" ++ toString first, "user:" ++ toString uid, now + 60⟩ :: r := by
        simp only [BookMyShowTimeoutImp, redisSetNX, hg', Bool.false_eq_true, if_false]
        rw [if_pos trivial]
        split
        · rfl
        · rfl
      rw [hr]
      unfold redisGet
      rw [List.find?_cons_of_pos _ (by simp)]
    · exfalso
      have hg' : (redisGet r ("seat_lock:" ++ toString first)).isSome = true := by
        rw [hg]
        rfl
      have hres : BookMyShowTimeoutImp db r uid (first :: rest) bid now =
          (db, r, some (.lockContention (some h))) := by
        simp only [BookMyShowTimeoutImp, redisSetNX, hg', if_true]
        rw [if_neg (by simp)]
        rw [hg]
      rw [hres] at hnone
      exact Option.noConfusion hnone

/-- C8 witness: the lock discipline evaluated with the key free (seat 1,
user 2) and with the key held by user 9. -/
theorem bms_lock_discipline_witness :
    (BookMyShowTimeoutImp [seatRow] [] 2 [1] "b" 0).2.1 =
      ⟨"seat_lock:" ++ toString 1, "user:" ++ toString 2, 0 + 60⟩ :: []
    ∧ BookMyShowTimeoutImp [seatRow] [⟨"seat_lock:1", "user:9", 60⟩] 2 [1] "b" 0 =
        ([seatRow], [⟨"seat_lock:1", "user:9", 60⟩], some (.lockContention (some "user:9")))
    ∧ redisGet ((BookMyShowTimeoutImp [seatRow] [] 2 [1] "b" 0).2.1)
        ("seat_lock:" ++ toString 1) = some ("user:" ++ toString 2) := by
  have h := bms_lock_discipline [seatRow] [] 2 1 [] "b" 0
  have h2 := bms_lock_discipline [seatRow] [⟨"seat_lock:1", "user:9", 60⟩] 2 1 [] "b" 0
  exact ⟨h.1 (by decide), h2.2.1 "user:9" (by decide), h.2.2 (by decide)⟩
